import Mathlib

/-!
# fake-web: a verification development

A shallow embedding of `fake-web.cpp`, an interactive tool that keeps one text file per
"site" in a storage directory, and proofs about its address validator, its five commands and
its line parser.

## Modelling conventions

* A `std::string` is the list of its `char`s, each `char` given by its value as an
  `unsigned char` (`Str = List Nat`).  `size()` is `List.length`; every theorem that depends
  on `size_t` arithmetic carries the hypothesis that the length is below `2 ^ 64`.
* A string literal of the (UTF-8 encoded) source file is the list of its bytes, `lit "..."`.
  The box-drawing glyphs therefore occupy three `char`s each, as they do in the program.
* The storage directory holds regular files only, `World.files`: its entries
  `(filename, content)` in the order in which the directory enumeration returns them, every
  name a file name (`fileName`: not empty, no `/`, no NUL, not `.` or `..`, at most
  `NAME_MAX` bytes; `World.wf`).
* The path `SITES_DIR/address` reaches the file system as a C string and is resolved
  component by component (`resolve`): an address may name an entry, name nothing, or name
  the storage directory itself (`.`, `./`, ...); `./a.com` names the entry `a.com`.  Where
  the path leaves the storage directory (`..`) or exceeds a limit of the file system, and
  where the program reads or removes the directory itself, the model does not say what the
  program does: the command only sets `World.unmodelled`.
* Opening an existing regular file succeeds; whether a new entry can be created is decided
  by the environment (`World.creatable`), the branch `if (!f)` of `cmdCreate`.
* Standard input and standard output are byte streams: `cin` holds what is still unread,
  `cout` everything printed so far.
-/

namespace FakeWeb

/-- A `std::string`: its `char`s as `unsigned char` values. -/
abbrev Str := List Nat

/-- UTF-8 encoding of one code point, the bytes a character of a source literal stands for. -/
def utf8Char (c : Char) : List Nat :=
  let v := c.toNat
  if v < 0x80 then [v]
  else if v < 0x800 then [0xC0 + v / 64, 0x80 + v % 64]
  else if v < 0x10000 then [0xE0 + v / 4096, 0x80 + v / 64 % 64, 0x80 + v % 64]
  else [0xF0 + v / 262144, 0x80 + v / 4096 % 64, 0x80 + v / 64 % 64, 0x80 + v % 64]

/-- The bytes of a string literal of the source file. -/
def lit (s : String) : Str := s.toList.flatMap utf8Char

/-- The `char` written `'.'`. -/
def DOT : Nat := 46

/-- The `char` written `'\n'`. -/
def NL : Nat := 10

/-- The `char` written `' '`. -/
def SP : Nat := 32

/-- The `char` written `'/'`, the separator of path components. -/
def SLASH : Nat := 47

/-- Longest file name the file system takes, in bytes (`NAME_MAX`). -/
def NAME_MAX : Nat := 255

/-- Longest path the file system takes, in bytes with the closing NUL (`PATH_MAX`). -/
def PATH_MAX : Nat := 4096

/-! ## Machine integers -/

/-- The constant `std::string::npos`, the largest `size_t`. -/
def npos : Nat := 2 ^ 64 - 1

/-- Subtraction of two `size_t` values, wrapping modulo `2 ^ 64`. -/
def sizeSub (a b : Nat) : Nat := (a % 2 ^ 64 + 2 ^ 64 - b % 2 ^ 64) % 2 ^ 64

/-- The cast `(int)x` of a `size_t`: reduction to 32 bits, read as two's complement. -/
def toInt (x : Nat) : Int :=
  if x % 2 ^ 32 < 2 ^ 31 then (x % 2 ^ 32 : Nat) else ((x % 2 ^ 32 : Nat) : Int) - 2 ^ 32

/-- The output of `for (int i = 0; i < n; i++) std::cout << ' ';`. -/
def spaces (n : Int) : Str := List.replicate n.toNat SP

/-! ## Library functions -/

/-- Scan of `rfind` downwards from index `n - 1`: the highest index below `n` holding `c`,
or `npos`. -/
def rfindFrom (s : Str) (c : Nat) : Nat → Nat
  | 0 => npos
  | n + 1 => if s[n]? = some c then n else rfindFrom s c n

/-- The call `s.rfind(c)`: the index of the last occurrence of `c`, or `npos`. -/
def rfind (s : Str) (c : Nat) : Nat := rfindFrom s c s.length

/-- The function `isspace` in the "C" locale: space, `\t`, `\n`, `\v`, `\f`, `\r`; no `char`
above 127 is whitespace. -/
def isspace (c : Nat) : Bool := c == 32 || (9 ≤ c && c ≤ 13)

/-- The call `std::getline(is, line)` on the unread part `is` of a stream: fails when nothing is left,
otherwise yields the characters before the first `'\n'` and the stream after that `'\n'`. -/
def getline (is : Str) : Option (Str × Str) :=
  if is = [] then none
  else some (is.takeWhile (fun c => c != NL), (is.dropWhile (fun c => c != NL)).drop 1)

/-! ## The storage directory -/

/-- The storage directory's name. -/
def SITES_DIR : Str := lit "./fake-web-sites"

/-- Path of the file of a site. -/
def sitePath (address : Str) : Str := SITES_DIR ++ lit "/" ++ address

/-- Whether the storage directory has an entry of this name, that is, whether the site exists.
For an address that is a file name this is what `fs::exists(sitePath(address))` returns
(`resolve_fileName`); for other addresses `resolve` says what the path names. -/
def fsExists (files : List (Str × Str)) (address : Str) : Bool :=
  files.any (fun e => e.1 == address)

/-- The whole content of the entry named `address` (empty when there is none). -/
def readFile (files : List (Str × Str)) (address : Str) : Str :=
  match files.find? (fun e => e.1 == address) with
  | some e => e.2
  | none => []

/-- Effect of `std::ofstream f(path); f << content;` on the entries, for a path that names the
entry `address` or would make it: the file is created or truncated and then holds exactly
`content`. -/
def writeFile (files : List (Str × Str)) (address content : Str) : List (Str × Str) :=
  if fsExists files address then
    files.map (fun e => if e.1 == address then (address, content) else e)
  else files ++ [(address, content)]

/-- Effect of `fs::remove(path)` on the entries, for a path that names the entry `address`. -/
def removeFile (files : List (Str × Str)) (address : Str) : List (Str × Str) :=
  files.filter (fun e => !(e.1 == address))

/-- A string that can be the name of a directory entry: not empty, not `.` or `..`, without
`/` and NUL, at most `NAME_MAX` bytes. -/
def fileName (s : Str) : Bool :=
  s != [] && s != lit "." && s != lit ".." && !s.contains SLASH && !s.contains 0
    && decide (s.length ≤ NAME_MAX)

/-- The C string a `std::string` hands to the file system: its bytes before the first NUL. -/
def cString (s : Str) : Str := s.takeWhile (fun c => c != 0)

/-- The components of a path: the pieces between its `/`. -/
def splitSlash : Str → List Str
  | [] => [[]]
  | c :: cs =>
    if c = SLASH then [] :: splitSlash cs
    else
      match splitSlash cs with
      | [] => [[c]]
      | x :: xs => (c :: x) :: xs

/-- What the path of an address names. -/
inductive Target where
  /-- The regular file of this name in the storage directory. -/
  | file (name : Str) (ok : fileName name = true)
  /-- Nothing yet; a file created there is the entry of this name. -/
  | fresh (name : Str) (ok : fileName name = true)
  /-- The storage directory itself. -/
  | dir
  /-- Nothing, and nothing can be created there: the path goes through a name that is
  missing or is a regular file. -/
  | dead
  /-- The path leaves the storage directory or exceeds a limit of the file system. -/
  | unknown

/-- Resolution of the components of an address, starting in the storage directory: empty
components and `.` stay there, `..` leaves it, a name is looked up among the entries and must
be the last component. -/
def walk (files : List (Str × Str)) : List Str → Target
  | [] => Target.dir
  | c :: rest =>
    if c = [] ∨ c = lit "." then walk files rest
    else if c = lit ".." then Target.unknown
    else if h : fileName c = true then
      if rest = [] then
        if fsExists files c then Target.file c h else Target.fresh c h
      else Target.dead
    else Target.unknown

/-- What `sitePath(address)` names, as `fs::exists`, `std::ofstream`, `std::ifstream` and
`fs::remove` find it. -/
def resolve (files : List (Str × Str)) (address : Str) : Target :=
  if (cString (sitePath address)).length + 1 > PATH_MAX then Target.unknown
  else walk files (splitSlash (cString address))

/-- Everything the program acts on. -/
structure World where
  /-- Entries of the storage directory, `(filename, content)`, in enumeration order. -/
  files : List (Str × Str)
  /-- Every entry has a file name. -/
  wf : ∀ e ∈ files, fileName e.1 = true
  /-- Whether `std::ofstream` can create the file of this address. -/
  creatable : Str → Bool
  /-- Unread standard input. -/
  cin : Str
  /-- Everything written to standard output so far. -/
  cout : Str
  /-- Set once a command has met a path of which the model does not say what the program
  does with it; the other fields then no longer describe the run. -/
  unmodelled : Bool

/-- The function `ensureDir`: the storage directory is created when it is missing.  The
directory of the model always exists, so nothing changes. -/
def ensureDir (w : World) : World := w

/-- The statement `std::cout << s`. -/
def World.print (w : World) (s : Str) : World := { w with cout := w.cout ++ s }

/-- The state after `std::ofstream f(path); f << content;` on a path that names the entry
`name` or would make it. -/
def World.store (w : World) (name content : Str) (ok : fileName name = true) : World :=
  { w with
    files := writeFile w.files name content
    wf := by
      intro e he
      unfold writeFile at he
      split at he
      · obtain ⟨e0, h0, rfl⟩ := List.mem_map.mp he
        split
        · exact ok
        · exact w.wf e0 h0
      · rcases List.mem_append.mp he with h | h
        · exact w.wf e h
        · rw [List.mem_singleton.mp h]
          exact ok }

/-- The state after `fs::remove(path)` on a path that names the entry `name`. -/
def World.unlink (w : World) (name : Str) : World :=
  { w with
    files := removeFile w.files name
    wf := fun e he => w.wf e (List.mem_of_mem_filter he) }

/-- A command has met a path outside what the model describes. -/
def World.astray (w : World) : World := { w with unmodelled := true }

/-! ## The address validator -/

/-- The function `isValidAddress`, with `addr.size() - 1` computed in `size_t`. -/
def isValidAddress (addr : Str) : Bool :=
  let dot := rfind addr DOT
  if dot = npos ∨ dot = 0 ∨ dot = sizeSub addr.length 1 then false else true

/-! ## The commands -/

/-- The function `cmdCreate`: validity check, `fs::exists`, creation of the empty file. -/
def cmdCreate (address : Str) (w : World) : World :=
  if !isValidAddress address then
    w.print (lit "Invalid address. Use format: filename.domain (e.g. hello.com)\n")
  else
    match resolve w.files address with
    | Target.unknown => w.astray
    | Target.file _ _ => w.print (lit "Site '" ++ address ++ lit "' already exists.\n")
    | Target.dir => w.print (lit "Site '" ++ address ++ lit "' already exists.\n")
    | Target.dead => w.print (lit "Failed to create site.\n")
    | Target.fresh name ok =>
      if !w.creatable address then
        w.print (lit "Failed to create site.\n")
      else
        (w.store name [] ok).print
          (lit "Created '" ++ address ++ lit "'. Use 'edit " ++ address
            ++ lit "' to add content.\n")

/-- The reading loop of `cmdEdit`, started on the unread input `is` with `content` accumulated
so far: `while (std::getline(std::cin, line)) { if (line == "END") break; content += line + "\n"; }`.
Returns the final `content` and the input left unread. -/
def editLoop (is content : Str) : Str × Str :=
  match _h : getline is with
  | none => (content, is)
  | some (line, rest) =>
    if line = lit "END" then (content, rest)
    else editLoop rest (content ++ (line ++ lit "\n"))
termination_by is.length
decreasing_by
  have h := _h
  unfold getline at h
  split at h
  · cases h
  · simp only [Option.some.injEq, Prod.mk.injEq] at h
    obtain ⟨-, rfl⟩ := h
    have hlen := (List.dropWhile_sublist (fun c => c != NL) (l := is)).length_le
    cases is with
    | nil => contradiction
    | cons c cs =>
      simp only [List.length_drop, List.length_cons] at hlen ⊢
      omega

/-- The function `cmdEdit`: `fs::exists`, reading loop, overwrite of the file.  On the storage
directory itself the stream `f` does not open and nothing is written. -/
def cmdEdit (address : Str) (w : World) : World :=
  match resolve w.files address with
  | Target.unknown => w.astray
  | Target.fresh _ _ =>
    w.print (lit "Site '" ++ address ++ lit "' not found. Create it first with: create "
      ++ address ++ lit "\n")
  | Target.dead =>
    w.print (lit "Site '" ++ address ++ lit "' not found. Create it first with: create "
      ++ address ++ lit "\n")
  | Target.file name ok =>
    let w1 := w.print
      (lit "Enter content for " ++ address ++ lit " (type END on a new line to finish):\n")
    let r := editLoop w1.cin []
    ({ w1 with cin := r.2 }.store name r.1 ok).print
      (lit "Saved content to '" ++ address ++ lit "'.\n")
  | Target.dir =>
    let w1 := w.print
      (lit "Enter content for " ++ address ++ lit " (type END on a new line to finish):\n")
    let r := editLoop w1.cin []
    ({ w1 with cin := r.2 }).print (lit "Saved content to '" ++ address ++ lit "'.\n")

/-- One body row of the box: what one iteration of the `while` loop of `cmdVisit` prints. -/
def renderRow (line : Str) : Str :=
  lit "║  "
    ++ (if line.length > 47 then line.take 47
        else line ++ spaces (toInt (sizeSub 47 line.length)))
    ++ lit "║\n"

/-- The loop `while (std::getline(ss, line)) { ... }` of `cmdVisit` on the unread part `ss` of
the content: everything it prints. -/
def bodyLoop (ss : Str) : Str :=
  match _h : getline ss with
  | none => []
  | some (line, rest) => renderRow line ++ bodyLoop rest
termination_by ss.length
decreasing_by
  have h := _h
  unfold getline at h
  split at h
  · cases h
  · simp only [Option.some.injEq, Prod.mk.injEq] at h
    obtain ⟨-, rfl⟩ := h
    have hlen := (List.dropWhile_sublist (fun c => c != NL) (l := ss)).length_le
    cases ss with
    | nil => contradiction
    | cons c cs =>
      simp only [List.length_drop, List.length_cons] at hlen ⊢
      omega

/-- A run of `n` glyphs `═`, as the literals of the three borders contain it. -/
def hbar (n : Nat) : Str := (List.replicate n (lit "═")).flatten

/-- Top border of the box: the literal `╔`, fifty `═`, `╗` and a newline. -/
def boxTop : Str := lit "╔" ++ hbar 50 ++ lit "╗\n"

/-- Separator between header and body: the literal `╠`, fifty `═`, `╣` and a newline. -/
def boxMid : Str := lit "╠" ++ hbar 50 ++ lit "╣\n"

/-- Bottom border of the box, with the blank line after it: the literal `╚`, fifty `═`, `╝`
and two newlines. -/
def boxBottom : Str := lit "╚" ++ hbar 50 ++ lit "╝\n\n"

/-- The header line: the address, then `pad = 35 - (int)address.size()` spaces. -/
def boxHeader (address : Str) : Str :=
  lit "║  fake-web://  " ++ address ++ spaces (35 - toInt address.length) ++ lit "║\n"

/-- The body of the box for the given file content. -/
def boxBody (content : Str) : Str :=
  if content = [] then lit "║  (empty page)                                    ║\n"
  else bodyLoop content

/-- The function `cmdVisit`: `fs::exists`, then the box around the content of the file. -/
def cmdVisit (address : Str) (w : World) : World :=
  match resolve w.files address with
  | Target.unknown => w.astray
  | Target.dir => w.astray
  | Target.fresh _ _ =>
    w.print (lit "404 Not Found: '" ++ address ++ lit "' does not exist.\n")
  | Target.dead =>
    w.print (lit "404 Not Found: '" ++ address ++ lit "' does not exist.\n")
  | Target.file name _ =>
    let content := readFile w.files name
    w.print (lit "\n" ++ boxTop ++ boxHeader address ++ boxMid ++ boxBody content ++ boxBottom)

/-- One line of the listing. -/
def listEntry (s : Str) : Str := lit "  • " ++ s ++ lit "\n"

/-- The function `cmdList`; `std::sort` on strings is the ascending sort for the lexicographic order of
`unsigned char` values. -/
def cmdList (w : World) : World :=
  let w := ensureDir w
  let sites := w.files.map Prod.fst
  if sites = [] then
    w.print (lit "No sites yet. Use 'create <name>.<domain>' to make one.\n")
  else
    w.print (lit "Sites on fake-web:\n"
      ++ (sites.insertionSort (fun a b => a ≤ b)).flatMap listEntry)

/-- The function `cmdDelete`: `fs::exists`, removal of the file. -/
def cmdDelete (address : Str) (w : World) : World :=
  match resolve w.files address with
  | Target.unknown => w.astray
  | Target.dir => w.astray
  | Target.fresh _ _ => w.print (lit "Site '" ++ address ++ lit "' not found.\n")
  | Target.dead => w.print (lit "Site '" ++ address ++ lit "' not found.\n")
  | Target.file name _ =>
    (w.unlink name).print (lit "Deleted '" ++ address ++ lit "'.\n")

/-- The function `printHelp`. -/
def printHelp (w : World) : World :=
  w.print (lit "\n  fake-web - your personal fake internet\n\n"
    ++ lit "  Commands:\n"
    ++ lit "    create <name>.<domain>   Create a new site (e.g. create hello.com)\n"
    ++ lit "    edit   <name>.<domain>   Add/replace content of a site\n"
    ++ lit "    visit  <name>.<domain>   View the site contents\n"
    ++ lit "    list                     List all sites\n"
    ++ lit "    delete <name>.<domain>   Delete a site\n"
    ++ lit "    help                     Show this help\n"
    ++ lit "    exit                     Quit fake-web\n\n"
    ++ lit "  Domains can be anything: .com .net .pizza .lol .whatever\n\n")

/-! ## The command loop -/

/-- The trimming loops of `main`: leading, then trailing whitespace is erased. -/
def trim (input : Str) : Str := (input.dropWhile isspace).rdropWhile isspace

/-- The parse `iss >> cmd; std::getline(iss >> std::ws, arg);` of a trimmed line: the first
whitespace-delimited word, and the rest of the line after the whitespace that follows it. -/
def parseLine (input : Str) : Str × Str :=
  let afterWs := input.dropWhile isspace
  let cmd := afterWs.takeWhile (fun c => !isspace c)
  let afterCmd := afterWs.dropWhile (fun c => !isspace c)
  let arg := match getline (afterCmd.dropWhile isspace) with
    | some (line, _) => line
    | none => []
  (cmd, arg)

/-- The body of the `while (true)` loop of `main` after a line `input` has been read: the new
state, and whether the loop goes on (`false` after `exit` or `quit`). -/
def execLine (input : Str) (w : World) : World × Bool :=
  let input := trim input
  if input = [] then (w, true)
  else
    let cmd := (parseLine input).1
    let arg := (parseLine input).2
    if cmd = lit "exit" ∨ cmd = lit "quit" then (w.print (lit "Goodbye!\n"), false)
    else if cmd = lit "help" then (printHelp w, true)
    else if cmd = lit "create" then
      if arg = [] then (w.print (lit "Usage: create <name>.<domain>\n"), true)
      else (cmdCreate arg w, true)
    else if cmd = lit "edit" then
      if arg = [] then (w.print (lit "Usage: edit <name>.<domain>\n"), true)
      else (cmdEdit arg w, true)
    else if cmd = lit "visit" then
      if arg = [] then (w.print (lit "Usage: visit <name>.<domain>\n"), true)
      else (cmdVisit arg w, true)
    else if cmd = lit "list" then (cmdList w, true)
    else if cmd = lit "delete" ∨ cmd = lit "rm" then
      if arg = [] then (w.print (lit "Usage: delete <name>.<domain>\n"), true)
      else (cmdDelete arg w, true)
    else (w.print (lit "Unknown command: '" ++ cmd ++ lit "'. Type 'help' for commands.\n"), true)

/-! ## Vocabulary of the statements -/

/-- The byte stream that delivers the lines `L`: each line followed by a newline. -/
def unlines (L : List Str) : Str := L.flatMap (fun l => l ++ [NL])

/-- The lines a stream delivers: the results of successive `std::getline` calls until one
fails. -/
def inputLines (is : Str) : List Str :=
  match _h : getline is with
  | none => []
  | some (line, rest) => line :: inputLines rest
termination_by is.length
decreasing_by
  have h := _h
  unfold getline at h
  split at h
  · cases h
  · simp only [Option.some.injEq, Prod.mk.injEq] at h
    obtain ⟨-, rfl⟩ := h
    have hlen := (List.dropWhile_sublist (fun c => c != NL) (l := is)).length_le
    cases is with
    | nil => contradiction
    | cons c cs =>
      simp only [List.length_drop, List.length_cons] at hlen ⊢
      omega

/-- A line cut or padded to 47 characters: its first 47 characters when it is longer, otherwise
the line followed by spaces up to 47 characters. -/
def fit47 (l : Str) : Str :=
  if l.length ≤ 47 then l ++ List.replicate (47 - l.length) SP else l.take 47

/-- Number of characters a UTF-8 encoded text displays: its bytes other than the continuation
bytes `10xxxxxx`. -/
def columns (s : Str) : Nat := (s.filter (fun b => b / 64 != 2)).length

/-! ## Sample states -/

/-- A state with an empty storage directory, in which every file can be created, and the given
unread input. -/
def emptyWorld (cin : Str) : World :=
  { files := []
    wf := fun _ h => by cases h
    creatable := fun _ => true
    cin := cin
    cout := []
    unmodelled := false }

/-- A state whose storage directory holds the single site `hello.com` with the given content. -/
def helloWorld (content cin : Str) : World :=
  { files := [(lit "hello.com", content)]
    wf := fun e he => by
      rw [List.mem_singleton.mp he]
      show fileName (lit "hello.com") = true
      decide
    creatable := fun _ => true
    cin := cin
    cout := []
    unmodelled := false }

/-! ## Facts about the library functions -/

theorem rfindFrom_spec (s : Str) (c : Nat) (n : Nat) :
    (rfindFrom s c n = npos ∧ ∀ j, j < n → s[j]? ≠ some c) ∨
    (∃ d, d < n ∧ rfindFrom s c n = d ∧ s[d]? = some c ∧
      ∀ j, d < j → j < n → s[j]? ≠ some c) := by
  induction n with
  | zero => left; simp [rfindFrom]
  | succ n ih =>
    by_cases h : s[n]? = some c
    · right
      exact ⟨n, by omega, by simp [rfindFrom, h], h, fun j h1 h2 => by omega⟩
    · rcases ih with ⟨h1, h2⟩ | ⟨d, hd, h1, h2, h3⟩
      · left
        refine ⟨by simp [rfindFrom, h, h1], fun j hj => ?_⟩
        rcases Nat.lt_succ_iff_lt_or_eq.mp hj with h' | rfl
        · exact h2 j h'
        · exact h
      · right
        refine ⟨d, by omega, by simp [rfindFrom, h, h1], h2, fun j h4 h5 => ?_⟩
        rcases Nat.lt_succ_iff_lt_or_eq.mp h5 with h' | rfl
        · exact h3 j h4 h'
        · exact h

/-- The scan `rfind` either reports `npos` on a string without `c`, or returns the index of the last
occurrence of `c`. -/
theorem rfind_spec (s : Str) (c : Nat) :
    (rfind s c = npos ∧ ∀ j : Nat, s[j]? ≠ some c) ∨
    (∃ d, d < s.length ∧ rfind s c = d ∧ s[d]? = some c ∧ ∀ j : Nat, d < j → s[j]? ≠ some c) := by
  rcases rfindFrom_spec s c s.length with ⟨h1, h2⟩ | ⟨d, hd, h1, h2, h3⟩
  · left
    refine ⟨h1, fun j => ?_⟩
    by_cases hj : j < s.length
    · exact h2 j hj
    · simp [List.getElem?_eq_none (Nat.le_of_not_lt hj)]
  · right
    refine ⟨d, hd, h1, h2, fun j hdj => ?_⟩
    by_cases hj : j < s.length
    · exact h3 j hdj hj
    · simp [List.getElem?_eq_none (Nat.le_of_not_lt hj)]

theorem sizeSub_one (n : Nat) (h0 : 0 < n) (h : n < 2 ^ 64) : sizeSub n 1 = n - 1 := by
  unfold sizeSub
  omega

/-- The validator accepts exactly the strings whose last `.` is neither the first nor the
last character. -/
theorem isValidAddress_eq_true_iff (s : Str) (hlen : s.length < 2 ^ 64) :
    isValidAddress s = true ↔
      ∃ d, d < s.length ∧ s[d]? = some DOT ∧ (∀ j, d < j → s[j]? ≠ some DOT) ∧
        d ≠ 0 ∧ d ≠ s.length - 1 := by
  unfold isValidAddress
  rcases rfind_spec s DOT with ⟨h1, h2⟩ | ⟨d, hd, h1, h2, h3⟩
  · simp only [h1, true_or, if_true]
    constructor
    · intro h; cases h
    · rintro ⟨d, -, hd, -⟩
      exact absurd hd (h2 d)
  · have hnp : d ≠ npos := by unfold npos; omega
    have hsub : sizeSub s.length 1 = s.length - 1 := sizeSub_one _ (by omega) hlen
    simp only [h1, hsub, hnp, false_or]
    constructor
    · intro h
      refine ⟨d, hd, h2, h3, ?_, ?_⟩
      · rintro rfl; simp at h
      · intro h'; simp [h'] at h
    · rintro ⟨d', hd', h2', h3', h0, hl⟩
      have : d' = d := by
        rcases Nat.lt_trichotomy d' d with hlt | heq | hgt
        · exact absurd h2 (h3' d hlt)
        · exact heq
        · exact absurd h2' (h3 d' hgt)
      subst this
      simp [h0, hl]

/-! ## The address validator: claims -/

/-- C2: for every string `s` (of a length a `size_t` can hold), `isValidAddress s` is true if
and only if `s` contains a `.` and the index `d` of the last `.` satisfies `d ≠ 0` and
`d ≠ length s - 1`; it is false for the empty string, where `size() - 1` wraps around, and
for every string without a `.`. -/
theorem isValidAddress_last_dot (s : Str) (hlen : s.length < 2 ^ 64) :
    (isValidAddress s = true ↔
      ∃ d, d < s.length ∧ s[d]? = some DOT ∧ (∀ j : Nat, d < j → s[j]? ≠ some DOT) ∧
        d ≠ 0 ∧ d ≠ s.length - 1) ∧
    isValidAddress [] = false ∧
    (DOT ∉ s → isValidAddress s = false) := by
  refine ⟨isValidAddress_eq_true_iff s hlen, by decide, fun hno => ?_⟩
  rw [← Bool.not_eq_true, isValidAddress_eq_true_iff s hlen]
  rintro ⟨d, hd, hdot, -⟩
  rw [List.getElem?_eq_getElem hd, Option.some.injEq] at hdot
  exact hno (hdot ▸ List.getElem_mem hd)

/-- Witness of C2 at `hello.com`, which is accepted and whose last `.`, at index 5, is neither
its first nor its last character. -/
theorem isValidAddress_last_dot_witness :
    (lit "hello.com").length < 2 ^ 64 ∧
    isValidAddress (lit "hello.com") = true ∧
    ∃ d, d < (lit "hello.com").length ∧ (lit "hello.com")[d]? = some DOT ∧
      (∀ j : Nat, d < j → (lit "hello.com")[j]? ≠ some DOT) ∧
      d ≠ 0 ∧ d ≠ (lit "hello.com").length - 1 :=
  ⟨by decide, by decide,
   (isValidAddress_last_dot (lit "hello.com") (by decide)).1.mp (by decide)⟩

/-- C1, counterexample: `a.b.` has a `.` at index 1, which is neither its first nor its last
character, and yet is rejected, because its last `.` is its last character. -/
theorem isValidAddress_some_dot_counterexample :
    ¬ (isValidAddress (lit "a.b.") = true ↔
        ∃ i : Nat, 0 < i ∧ i < (lit "a.b.").length - 1 ∧ (lit "a.b.")[i]? = some DOT) := by
  intro h
  have hv : isValidAddress (lit "a.b.") = true := h.mpr ⟨1, by decide, by decide, by decide⟩
  exact absurd hv (by decide)

/-- C1, amended: `isValidAddress s` is true if and only if `s` contains a `.` at an index `i`
with `0 < i < length s - 1` and the last character of `s` is not a `.`; for every other
string it is false. -/
theorem isValidAddress_some_dot (s : Str) (hlen : s.length < 2 ^ 64) :
    isValidAddress s = true ↔
      (∃ i : Nat, 0 < i ∧ i < s.length - 1 ∧ s[i]? = some DOT) ∧ s.getLast? ≠ some DOT := by
  rw [isValidAddress_eq_true_iff s hlen, List.getLast?_eq_getElem?]
  constructor
  · rintro ⟨d, hd, hdot, hlast, h0, hl⟩
    exact ⟨⟨d, by omega, by omega, hdot⟩, hlast _ (by omega)⟩
  · rintro ⟨⟨i, hi0, hi, hdot⟩, hlast⟩
    rcases rfind_spec s DOT with ⟨-, h2⟩ | ⟨d, hd, -, h2, h3⟩
    · exact absurd hdot (h2 i)
    · have hid : i ≤ d := by
        by_contra hc
        exact h3 i (by omega) hdot
      refine ⟨d, hd, h2, h3, by omega, ?_⟩
      intro hc
      exact hlast (hc ▸ h2)

/-- Witness of the amended C1 at `hello.com`, which is accepted: it has a `.` strictly inside
and does not end in one. -/
theorem isValidAddress_some_dot_witness :
    (lit "hello.com").length < 2 ^ 64 ∧
    isValidAddress (lit "hello.com") = true ∧
    (∃ i : Nat, 0 < i ∧ i < (lit "hello.com").length - 1 ∧
      (lit "hello.com")[i]? = some DOT) ∧
    (lit "hello.com").getLast? ≠ some DOT :=
  ⟨by decide, by decide,
   (isValidAddress_some_dot (lit "hello.com") (by decide)).mp (by decide)⟩

/-! ## Facts about the storage directory -/

/-- Distinct addresses have distinct path strings; two of them may still name the same file,
as `resolve` tells. -/
theorem sitePath_injective (a b : Str) (h : sitePath a = sitePath b) : a = b :=
  List.append_cancel_left h

@[simp] theorem print_files (w : World) (s : Str) : (w.print s).files = w.files := rfl

@[simp] theorem print_cin (w : World) (s : Str) : (w.print s).cin = w.cin := rfl

@[simp] theorem print_cout (w : World) (s : Str) : (w.print s).cout = w.cout ++ s := rfl

@[simp] theorem print_creatable (w : World) (s : Str) :
    (w.print s).creatable = w.creatable := rfl

@[simp] theorem store_files (w : World) (name content : Str) (ok : fileName name = true) :
    (w.store name content ok).files = writeFile w.files name content := rfl

@[simp] theorem store_cin (w : World) (name content : Str) (ok : fileName name = true) :
    (w.store name content ok).cin = w.cin := rfl

@[simp] theorem unlink_files (w : World) (name : Str) :
    (w.unlink name).files = removeFile w.files name := rfl

@[simp] theorem unlink_cin (w : World) (name : Str) : (w.unlink name).cin = w.cin := rfl

@[simp] theorem unlink_cout (w : World) (name : Str) : (w.unlink name).cout = w.cout := rfl

theorem fsExists_cons (e : Str × Str) (fs : List (Str × Str)) (a : Str) :
    fsExists (e :: fs) a = (e.1 == a || fsExists fs a) := by
  simp [fsExists]

theorem readFile_cons (e : Str × Str) (fs : List (Str × Str)) (a : Str) :
    readFile (e :: fs) a = if e.1 = a then e.2 else readFile fs a := by
  by_cases h : e.1 = a
  · simp [readFile, List.find?_cons, h]
  · have hb : (e.1 == a) = false := by simpa using h
    simp [readFile, List.find?_cons, hb, h]

/-- A file that has just been written exists. -/
theorem fsExists_writeFile (fs : List (Str × Str)) (a c : Str) :
    fsExists (writeFile fs a c) a = true := by
  unfold writeFile
  split
  · rename_i h
    simp only [fsExists, List.any_eq_true, beq_iff_eq] at h ⊢
    obtain ⟨e, he, hea⟩ := h
    exact ⟨(a, c), List.mem_map.mpr ⟨e, he, by simp [hea]⟩, rfl⟩
  · simp [fsExists]

/-- Reading back a file that has just been written yields what was written. -/
theorem readFile_writeFile (fs : List (Str × Str)) (a c : Str) :
    readFile (writeFile fs a c) a = c := by
  unfold writeFile
  split
  · rename_i h
    induction fs with
    | nil => simp [fsExists] at h
    | cons e fs ih =>
      by_cases hea : e.1 = a
      · simp [readFile_cons, hea]
      · have h' : fsExists fs a = true := by
          simpa [fsExists_cons, hea] using h
        simpa [readFile_cons, hea] using ih h'
  · rename_i h
    induction fs with
    | nil => simp [readFile_cons, readFile]
    | cons e fs ih =>
      have hea : ¬ e.1 = a := by
        intro hc; exact h (by simp [fsExists_cons, hc])
      have h' : ¬ fsExists fs a = true := by
        intro hc; exact h (by simp [fsExists_cons, hc])
      simpa [readFile_cons, hea] using ih h'

/-- A file that has just been removed does not exist. -/
theorem fsExists_removeFile (fs : List (Str × Str)) (a : Str) :
    fsExists (removeFile fs a) a = false := by
  simp [fsExists, removeFile]

/-! ## Facts about path resolution -/

theorem fileName_parts {a : Str} (h : fileName a = true) :
    a ≠ [] ∧ a ≠ lit "." ∧ a ≠ lit ".." ∧ SLASH ∉ a ∧ 0 ∉ a ∧ a.length ≤ NAME_MAX := by
  simpa [fileName, and_assoc] using h

theorem cString_eq_self {a : Str} (h : 0 ∉ a) : cString a = a := by
  unfold cString
  rw [List.takeWhile_eq_self_iff]
  intro c hc
  simp only [bne_iff_ne, ne_eq]
  rintro rfl
  exact h hc

theorem cString_length_le (a : Str) : (cString a).length ≤ a.length :=
  (List.takeWhile_sublist _).length_le

theorem splitSlash_ne_nil (a : Str) : splitSlash a ≠ [] := by
  cases a with
  | nil => simp [splitSlash]
  | cons c cs =>
    unfold splitSlash
    split
    · simp
    · split <;> simp

theorem splitSlash_eq_self {a : Str} (h : SLASH ∉ a) : splitSlash a = [a] := by
  induction a with
  | nil => rfl
  | cons c cs ih =>
    have hc : c ≠ SLASH := fun hc => h (hc ▸ List.mem_cons_self _ _)
    have hcs : SLASH ∉ cs := fun hm => h (List.mem_cons_of_mem _ hm)
    simp [splitSlash, hc, ih hcs]

/-- The path of a file name stays below the limit on paths. -/
theorem path_fits {a : Str} (h : a.length ≤ NAME_MAX) :
    ¬ (cString (sitePath a)).length + 1 > PATH_MAX := by
  have h1 := cString_length_le (sitePath a)
  have h2 : (sitePath a).length = 17 + a.length := by
    simp only [sitePath, List.length_append]
    have : SITES_DIR.length = 16 := by decide
    have : (lit "/").length = 1 := by decide
    omega
  unfold NAME_MAX at h
  unfold PATH_MAX
  omega

/-- An address that is a file name names the entry of that name, or nothing yet. -/
theorem resolve_fileName (files : List (Str × Str)) {a : Str} (h : fileName a = true) :
    resolve files a = if fsExists files a then Target.file a h else Target.fresh a h := by
  obtain ⟨h1, h2, h3, h4, h5, h6⟩ := fileName_parts h
  unfold resolve
  rw [if_neg (path_fits h6), cString_eq_self h5, splitSlash_eq_self h4]
  simp [walk, h1, h2, h3, h]

/-- The name of an entry of the storage directory is a file name. -/
theorem fileName_of_entry (w : World) {a : Str} (hex : fsExists w.files a = true) :
    fileName a = true := by
  simp only [fsExists, List.any_eq_true, beq_iff_eq] at hex
  obtain ⟨e, he, rfl⟩ := hex
  exact w.wf e he

/-- The address of an entry names that entry. -/
theorem resolve_entry (w : World) {a : Str} (hex : fsExists w.files a = true) :
    resolve w.files a = Target.file a (fileName_of_entry w hex) := by
  rw [resolve_fileName w.files (fileName_of_entry w hex), if_pos hex]

/-- A file name that is not among the entries names nothing yet. -/
theorem resolve_absent (files : List (Str × Str)) {a : Str} (h : fileName a = true)
    (hex : fsExists files a = false) : resolve files a = Target.fresh a h := by
  rw [resolve_fileName files h, if_neg (by simp [hex])]

/-! ## The commands on file names -/

theorem cmdEdit_entry (w : World) (a : Str) (hex : fsExists w.files a = true) :
    cmdEdit a w =
      (({ w.print (lit "Enter content for " ++ a
            ++ lit " (type END on a new line to finish):\n") with
          cin := (editLoop w.cin []).2 }).store a (editLoop w.cin []).1
        (fileName_of_entry w hex)).print (lit "Saved content to '" ++ a ++ lit "'.\n") := by
  simp [cmdEdit, resolve_entry w hex]

theorem cmdVisit_entry (w : World) (a : Str) (hex : fsExists w.files a = true) :
    cmdVisit a w = w.print (lit "\n" ++ boxTop ++ boxHeader a ++ boxMid
      ++ boxBody (readFile w.files a) ++ boxBottom) := by
  simp [cmdVisit, resolve_entry w hex]

theorem cmdVisit_absent (w : World) (a : Str) (hn : fileName a = true)
    (hex : fsExists w.files a = false) :
    cmdVisit a w = w.print (lit "404 Not Found: '" ++ a ++ lit "' does not exist.\n") := by
  simp [cmdVisit, resolve_absent w.files hn hex]

theorem cmdDelete_entry (w : World) (a : Str) (hex : fsExists w.files a = true) :
    cmdDelete a w = (w.unlink a).print (lit "Deleted '" ++ a ++ lit "'.\n") := by
  simp [cmdDelete, resolve_entry w hex]

/-- C6: for every state in which `addr` exists, `delete addr` prints `Deleted '<addr>'.` and
leaves a storage directory in which `addr` does not exist; a `visit addr` issued on any state
with that directory prints exactly `404 Not Found: '<addr>' does not exist.` and nothing
else. -/
theorem cmdDelete_then_visit (w : World) (addr : Str) (hex : fsExists w.files addr = true) :
    (cmdDelete addr w).cout = w.cout ++ (lit "Deleted '" ++ addr ++ lit "'.\n") ∧
    fsExists (cmdDelete addr w).files addr = false ∧
    ∀ v : World, v.files = (cmdDelete addr w).files →
      (cmdVisit addr v).cout =
        v.cout ++ (lit "404 Not Found: '" ++ addr ++ lit "' does not exist.\n") := by
  have hfiles : (cmdDelete addr w).files = removeFile w.files addr := by
    rw [cmdDelete_entry w addr hex]
    rfl
  refine ⟨by rw [cmdDelete_entry w addr hex]; rfl,
    by rw [hfiles]; exact fsExists_removeFile _ _, ?_⟩
  intro v hv
  have hno : fsExists v.files addr = false := by
    rw [hv, hfiles]; exact fsExists_removeFile _ _
  rw [cmdVisit_absent v addr (fileName_of_entry w hex) hno]
  rfl

/-- Witness of C6: `delete hello.com` where `hello.com` holds the line `Hi there`. -/
theorem cmdDelete_then_visit_witness :
    fsExists (helloWorld (lit "Hi there\n") []).files (lit "hello.com") = true ∧
    (cmdDelete (lit "hello.com") (helloWorld (lit "Hi there\n") [])).cout =
      (helloWorld (lit "Hi there\n") []).cout ++
        (lit "Deleted '" ++ lit "hello.com" ++ lit "'.\n") ∧
    fsExists (cmdDelete (lit "hello.com") (helloWorld (lit "Hi there\n") [])).files
      (lit "hello.com") = false ∧
    ∀ v : World,
      v.files = (cmdDelete (lit "hello.com") (helloWorld (lit "Hi there\n") [])).files →
      (cmdVisit (lit "hello.com") v).cout =
        v.cout ++ (lit "404 Not Found: '" ++ lit "hello.com" ++ lit "' does not exist.\n") :=
  ⟨by decide, cmdDelete_then_visit (helloWorld (lit "Hi there\n") []) (lit "hello.com")
    (by decide)⟩

theorem lit_newline : lit "\n" = [NL] := by decide

theorem unlines_cons (l : Str) (L : List Str) : unlines (l :: L) = l ++ NL :: unlines L := by
  simp [unlines]

theorem getline_nil : getline [] = none := by
  simp [getline]

/-- On a stream that starts with a line and its newline, `getline` yields that line and leaves
what follows the newline. -/
theorem getline_line (l rest : Str) (hl : NL ∉ l) :
    getline (l ++ NL :: rest) = some (l, rest) := by
  have h1 : ∀ c ∈ l, (c != NL) = true := by
    intro c hc
    simp only [bne_iff_ne, ne_eq]
    rintro rfl
    exact hl hc
  unfold getline
  rw [if_neg (by simp)]
  rw [List.takeWhile_append_of_pos h1, List.dropWhile_append_of_pos h1]
  simp [List.takeWhile, List.dropWhile]

/-- One turn of the reading loop of `cmdEdit`. -/
theorem editLoop_eq (is content : Str) :
    editLoop is content =
      match getline is with
      | none => (content, is)
      | some (line, rest) =>
        if line = lit "END" then (content, rest)
        else editLoop rest (content ++ (line ++ lit "\n")) := by
  rw [editLoop]
  split <;> simp [*]

/-- One turn of the printing loop of `cmdVisit`. -/
theorem bodyLoop_eq (ss : Str) :
    bodyLoop ss =
      match getline ss with
      | none => []
      | some (line, rest) => renderRow line ++ bodyLoop rest := by
  rw [bodyLoop]
  split <;> simp [*]

theorem getline_lt {is line rest : Str} (h : getline is = some (line, rest)) :
    rest.length < is.length := by
  unfold getline at h
  split at h
  · cases h
  · simp only [Option.some.injEq, Prod.mk.injEq] at h
    obtain ⟨-, rfl⟩ := h
    have hlen := (List.dropWhile_sublist (fun c => c != NL) (l := is)).length_le
    cases is with
    | nil => contradiction
    | cons c cs =>
      simp only [List.length_drop, List.length_cons] at hlen ⊢
      omega

/-- A line that `getline` yields holds no newline. -/
theorem getline_no_newline {is line rest : Str} (h : getline is = some (line, rest)) :
    NL ∉ line := by
  unfold getline at h
  split at h
  · cases h
  · simp only [Option.some.injEq, Prod.mk.injEq] at h
    obtain ⟨rfl, -⟩ := h
    intro hmem
    have := List.mem_takeWhile_imp hmem
    simp at this

/-- One step of the sequence of delivered lines. -/
theorem inputLines_eq (is : Str) :
    inputLines is =
      match getline is with
      | none => []
      | some (line, rest) => line :: inputLines rest := by
  rw [inputLines]
  split <;> simp [*]

/-- No delivered line holds a newline. -/
theorem inputLines_no_newline (is : Str) : ∀ l ∈ inputLines is, NL ∉ l := by
  generalize h : is.length = n
  induction n using Nat.strong_induction_on generalizing is with
  | _ n ih =>
    intro l hl
    rw [inputLines_eq] at hl
    cases hg : getline is with
    | none => simp [hg] at hl
    | some p =>
      obtain ⟨line, rest⟩ := p
      simp only [hg, List.mem_cons] at hl
      rcases hl with rfl | hl
      · exact getline_no_newline hg
      · exact ih rest.length (h ▸ getline_lt hg) rest rfl l hl

/-- A stream that starts with newline-terminated lines delivers these lines, then what the
rest of the stream delivers. -/
theorem inputLines_unlines_append (L : List Str) (rest : Str) (hL : ∀ l ∈ L, NL ∉ l) :
    inputLines (unlines L ++ rest) = L ++ inputLines rest := by
  induction L with
  | nil => simp [unlines]
  | cons l L ih =>
    have h : unlines (l :: L) ++ rest = l ++ NL :: (unlines L ++ rest) := by
      simp [unlines_cons]
    rw [inputLines_eq, h, getline_line l _ (hL l (List.mem_cons_self _ _))]
    simp [ih (fun x hx => hL x (List.mem_cons_of_mem _ hx))]

/-- A stream made of newline-terminated lines delivers exactly these lines. -/
theorem inputLines_unlines (L : List Str) (hL : ∀ l ∈ L, NL ∉ l) :
    inputLines (unlines L) = L := by
  have h := inputLines_unlines_append L [] hL
  rw [inputLines_eq [], getline_nil] at h
  simpa using h

/-- A last line without a newline after it is delivered like the others. -/
theorem inputLines_unterminated (last : Str) (hlast : NL ∉ last) (hne : last ≠ []) :
    inputLines last = [last] := by
  have h1 : ∀ c ∈ last, (c != NL) = true := by
    intro c hc
    simp only [bne_iff_ne, ne_eq]
    rintro rfl
    exact hlast hc
  have hg : getline last = some (last, []) := by
    unfold getline
    rw [if_neg hne, List.takeWhile_eq_self_iff.mpr h1,
      (List.dropWhile_eq_nil_iff (p := fun c => c != NL)).mpr h1]
    rfl
  rw [inputLines_eq, hg]
  simp only
  rw [inputLines_eq, getline_nil]

theorem takeWhile_append_stop {α : Type} (p : α → Bool) (L : List α) (x : α) (xs : List α)
    (hL : ∀ l ∈ L, p l = true) (hx : p x = false) : (L ++ x :: xs).takeWhile p = L := by
  induction L with
  | nil => simp [List.takeWhile_cons, hx]
  | cons l L ih =>
    rw [List.cons_append, List.takeWhile_cons, hL l (List.mem_cons_self _ _)]
    simp [ih (fun y hy => hL y (List.mem_cons_of_mem _ hy))]

/-- The reading loop of `cmdEdit` keeps the delivered lines before the first `END`, each with
a newline, and leaves unread a stream that delivers the lines after that `END`. -/
theorem editLoop_spec (is content : Str) :
    (editLoop is content).1 =
      content ++ unlines ((inputLines is).takeWhile (fun l => l ≠ lit "END")) ∧
    inputLines (editLoop is content).2 =
      ((inputLines is).dropWhile (fun l => l ≠ lit "END")).tail := by
  generalize h : is.length = n
  induction n using Nat.strong_induction_on generalizing is content with
  | _ n ih =>
    rw [editLoop_eq, inputLines_eq is]
    cases hg : getline is with
    | none =>
      have hnil : inputLines is = [] := by rw [inputLines_eq, hg]
      simp [unlines, hnil]
    | some p =>
      obtain ⟨line, rest⟩ := p
      by_cases hE : line = lit "END"
      · simp [hE, unlines]
      · have ih' := ih rest.length (h ▸ getline_lt hg) rest (content ++ (line ++ lit "\n")) rfl
        simp only [hE, if_false, ih'.1, ih'.2]
        simp [hE, unlines, lit_newline]

/-- The printing loop of `cmdVisit` prints one row per delivered line of the content. -/
theorem bodyLoop_spec (ss : Str) : bodyLoop ss = (inputLines ss).flatMap renderRow := by
  generalize h : ss.length = n
  induction n using Nat.strong_induction_on generalizing ss with
  | _ n ih =>
    rw [bodyLoop_eq, inputLines_eq]
    cases hg : getline ss with
    | none => simp
    | some p =>
      obtain ⟨line, rest⟩ := p
      simp [ih rest.length (h ▸ getline_lt hg) rest rfl]

theorem toInt_sizeSub_47 (n : Nat) (h : n ≤ 47) : toInt (sizeSub 47 n) = ((47 - n : Nat) : Int) := by
  have h1 : sizeSub 47 n = 47 - n := by
    unfold sizeSub
    omega
  rw [h1]
  unfold toInt
  have h2 : (47 - n) % 2 ^ 32 = 47 - n := by omega
  rw [h2, if_pos (by omega)]

/-- A body row holds the line cut or padded to 47 characters between `║  ` and `║`. -/
theorem renderRow_eq (l : Str) : renderRow l = lit "║  " ++ fit47 l ++ lit "║\n" := by
  unfold renderRow fit47
  by_cases h : l.length ≤ 47
  · rw [if_neg (by omega), if_pos h, toInt_sizeSub_47 _ h]
    simp [spaces]
  · rw [if_pos (by omega), if_neg h]

theorem fit47_length (l : Str) : (fit47 l).length = 47 := by
  unfold fit47
  split
  · simp only [List.length_append, List.length_replicate]
    omega
  · simp only [List.length_take]
    omega

theorem unlines_ne_nil (L : List Str) (h : L ≠ []) : unlines L ≠ [] := by
  cases L with
  | nil => exact absurd rfl h
  | cons l L => simp [unlines_cons]

/-! ## edit and visit -/

/-- C4: for every state in which `addr` exists, whatever its prior content, and every sequence
`L` of input lines that standard input delivers: after `edit addr` the content of `addr` is
exactly the concatenation of `l ++ "\n"` over the lines of `L` before the first line equal to
`END` (over all of `L` when no line is `END` and the input ends first); the lines after that
`END` stay unread; and the content is the same whatever the storage directory held before. -/
theorem cmdEdit_content (w : World) (addr : Str) (L : List Str)
    (hex : fsExists w.files addr = true) (hL : inputLines w.cin = L) :
    readFile (cmdEdit addr w).files addr =
      (L.takeWhile (fun l => l ≠ lit "END")).flatMap (fun l => l ++ lit "\n") ∧
    inputLines (cmdEdit addr w).cin = (L.dropWhile (fun l => l ≠ lit "END")).tail ∧
    ∀ v : World, fsExists v.files addr = true → v.cin = w.cin →
      readFile (cmdEdit addr v).files addr = readFile (cmdEdit addr w).files addr := by
  have key : ∀ v : World, fsExists v.files addr = true → inputLines v.cin = L →
      readFile (cmdEdit addr v).files addr =
        (L.takeWhile (fun l => l ≠ lit "END")).flatMap (fun l => l ++ lit "\n") := by
    intro v hv hc
    rw [cmdEdit_entry v addr hv]
    simp only [print_files, store_files, readFile_writeFile]
    rw [(editLoop_spec v.cin []).1, hc]
    simp [unlines, lit_newline]
  refine ⟨key w hex hL, ?_, fun v hv hc => ?_⟩
  · rw [cmdEdit_entry w addr hex]
    simp only [print_cin, store_cin]
    rw [(editLoop_spec w.cin []).2, hL]
  · rw [key v hv (hc ▸ hL), key w hex hL]

/-- Witness of C4: on `hello.com` holding `old`, the input lines `a`, `END`, `b` leave the
content `a` and the line `b` unread. -/
theorem cmdEdit_content_witness :
    (fsExists (helloWorld (lit "old\n") (lit "a\nEND\nb\n")).files (lit "hello.com") = true ∧
      inputLines (helloWorld (lit "old\n") (lit "a\nEND\nb\n")).cin
        = [lit "a", lit "END", lit "b"]) ∧
    readFile (cmdEdit (lit "hello.com")
        (helloWorld (lit "old\n") (lit "a\nEND\nb\n"))).files (lit "hello.com") = lit "a\n" ∧
    inputLines (cmdEdit (lit "hello.com") (helloWorld (lit "old\n") (lit "a\nEND\nb\n"))).cin
      = [lit "b"] := by
  have hin : inputLines (helloWorld (lit "old\n") (lit "a\nEND\nb\n")).cin
      = [lit "a", lit "END", lit "b"] :=
    inputLines_unlines [lit "a", lit "END", lit "b"] (by decide)
  have h := cmdEdit_content (helloWorld (lit "old\n") (lit "a\nEND\nb\n")) (lit "hello.com")
    [lit "a", lit "END", lit "b"] (by decide) hin
  refine ⟨⟨by decide, hin⟩, ?_, ?_⟩
  · rw [h.1]; decide
  · rw [h.2.1]; decide

/-- C5: for every state in which `addr` exists and every non-empty list of lines `L`, none
equal to `END` (and none containing a newline, being lines of the input): when standard
input delivers `L` followed by `END`, `edit addr` saves the lines of `L`, each terminated
by a newline, and the following `visit addr` prints, between the header separator and the
bottom border, exactly one body row per line of `L`, in order, whose text between `║  ` and
`║` is the line padded with spaces to exactly 47 characters, or its first 47 characters
when it is longer. -/
theorem edit_visit_roundtrip (w : World) (addr : Str) (L after : List Str)
    (hex : fsExists w.files addr = true) (hne : L ≠ [])
    (hEND : ∀ l ∈ L, l ≠ lit "END") (hcin : inputLines w.cin = L ++ lit "END" :: after) :
    readFile (cmdEdit addr w).files addr = unlines L ∧
    (cmdVisit addr (cmdEdit addr w)).cout =
      (cmdEdit addr w).cout ++ (lit "\n" ++ boxTop ++ boxHeader addr ++ boxMid
        ++ L.flatMap (fun l => lit "║  "
            ++ (if l.length ≤ 47 then l ++ List.replicate (47 - l.length) SP else l.take 47)
            ++ lit "║\n")
        ++ boxBottom) ∧
    ∀ l ∈ L, (if l.length ≤ 47 then l ++ List.replicate (47 - l.length) SP
      else l.take 47).length = 47 := by
  have hNL : ∀ l ∈ L, NL ∉ l := fun l hl =>
    inputLines_no_newline w.cin l (hcin ▸ List.mem_append_left _ hl)
  have hfiles : (cmdEdit addr w).files = writeFile w.files addr (unlines L) := by
    rw [cmdEdit_entry w addr hex]
    simp only [print_files, store_files]
    rw [(editLoop_spec w.cin []).1, hcin,
      takeWhile_append_stop _ L _ _ (fun l hl => by simpa using hEND l hl) (by simp)]
    rfl
  have hread : readFile (cmdEdit addr w).files addr = unlines L := by
    rw [hfiles, readFile_writeFile]
  have hex2 : fsExists (cmdEdit addr w).files addr = true := by
    rw [hfiles, fsExists_writeFile]
  refine ⟨hread, ?_, fun l _ => fit47_length l⟩
  have hrow : (fun l => lit "║  "
      ++ (if l.length ≤ 47 then l ++ List.replicate (47 - l.length) SP else l.take 47)
      ++ lit "║\n") = renderRow := by
    funext l
    rw [renderRow_eq]
    rfl
  rw [cmdVisit_entry (cmdEdit addr w) addr hex2]
  simp only [hread, print_cout, boxBody, if_neg (unlines_ne_nil L hne), bodyLoop_spec,
    inputLines_unlines L hNL, hrow]

/-- Witness of C5: the line `Hi there` written to `hello.com` is shown as `Hi there` followed
by 39 spaces. -/
theorem edit_visit_roundtrip_witness :
    (fsExists (helloWorld [] (lit "Hi there\nEND\n")).files (lit "hello.com") = true ∧
      [lit "Hi there"] ≠ [] ∧ (∀ l ∈ [lit "Hi there"], l ≠ lit "END") ∧
      inputLines (helloWorld [] (lit "Hi there\nEND\n")).cin
        = [lit "Hi there"] ++ lit "END" :: []) ∧
    (cmdVisit (lit "hello.com")
        (cmdEdit (lit "hello.com") (helloWorld [] (lit "Hi there\nEND\n")))).cout =
      (cmdEdit (lit "hello.com") (helloWorld [] (lit "Hi there\nEND\n"))).cout
        ++ (lit "\n" ++ boxTop ++ boxHeader (lit "hello.com") ++ boxMid
          ++ (lit "║  " ++ (lit "Hi there" ++ List.replicate 39 SP) ++ lit "║\n")
          ++ boxBottom) := by
  have hin : inputLines (helloWorld [] (lit "Hi there\nEND\n")).cin
      = [lit "Hi there"] ++ lit "END" :: [] :=
    inputLines_unlines [lit "Hi there", lit "END"] (by decide)
  have h := (edit_visit_roundtrip (helloWorld [] (lit "Hi there\nEND\n")) (lit "hello.com")
    [lit "Hi there"] [] (by decide) (by decide) (by decide) hin).2.1
  have hrow : (if (lit "Hi there").length ≤ 47
      then lit "Hi there" ++ List.replicate (47 - (lit "Hi there").length) SP
      else (lit "Hi there").take 47) = lit "Hi there" ++ List.replicate 39 SP := by decide
  refine ⟨⟨by decide, by decide, by decide, hin⟩, ?_⟩
  rw [h]
  simp only [List.flatMap_cons, List.flatMap_nil, List.append_nil, hrow]

/-! ## list -/

/-- The order `std::sort` uses on strings is the lexicographic one: the empty string comes
first, and two non-empty strings are compared by their first characters, then by their
tails. -/
theorem str_lt_lexicographic (a b : Nat) (s t : Str) :
    (([] : Str) < b :: t) ∧ ¬ (a :: s < ([] : Str)) ∧
    (a :: s < b :: t ↔ a < b ∨ (a = b ∧ s < t)) := by
  refine ⟨List.Lex.nil, (fun h => by cases h), ?_⟩
  constructor
  · intro h
    cases h with
    | cons h => exact Or.inr ⟨rfl, h⟩
    | rel h => exact Or.inl h
  · rintro (h | ⟨rfl, h⟩)
    · exact List.Lex.rel h
    · exact List.Lex.cons h

/-- What `list` prints does not depend on the order in which the entries are enumerated. -/
theorem sort_perm_invariant (l₁ l₂ : List Str) (h : l₁.Perm l₂) :
    l₁.insertionSort (fun a b => a ≤ b) = l₂.insertionSort (fun a b => a ≤ b) :=
  List.eq_of_perm_of_sorted (r := fun a b : Str => a ≤ b)
    (((List.perm_insertionSort _ l₁).trans h).trans (List.perm_insertionSort _ l₂).symm)
    (List.sorted_insertionSort _ l₁) (List.sorted_insertionSort _ l₂)

/-- C7: if the storage directory has no entry, `list` prints only the `No sites yet` hint;
otherwise it prints the heading and then, one per line after two spaces and a bullet, the entry
names in ascending lexicographic order: a sorted permutation of the names, the same whatever
order the enumeration returned them in.  After `create b.com` and `create a.com` in an empty
directory, `a.com` is printed before `b.com`. -/
theorem cmdList_spec (w : World) :
    (w.files = [] →
      (cmdList w).cout =
        w.cout ++ lit "No sites yet. Use 'create <name>.<domain>' to make one.\n") ∧
    (w.files ≠ [] →
      ∃ sorted : List Str,
        sorted.Perm (w.files.map Prod.fst) ∧ sorted.Sorted (fun a b => a ≤ b) ∧
        (cmdList w).cout = w.cout ++ (lit "Sites on fake-web:\n"
          ++ sorted.flatMap (fun s => lit "  • " ++ s ++ lit "\n"))) ∧
    (∀ v : World, (v.files.map Prod.fst).Perm (w.files.map Prod.fst) → v.cout = w.cout →
      (cmdList v).cout = (cmdList w).cout) ∧
    (cmdList (cmdCreate (lit "a.com") (cmdCreate (lit "b.com") (emptyWorld [])))).cout =
      (cmdCreate (lit "a.com") (cmdCreate (lit "b.com") (emptyWorld []))).cout
        ++ lit "Sites on fake-web:\n  • a.com\n  • b.com\n" := by
  refine ⟨fun h => ?_, fun h => ?_, fun v hp hc => ?_, ?_⟩
  · simp [cmdList, ensureDir, h]
  · refine ⟨(w.files.map Prod.fst).insertionSort (fun a b => a ≤ b),
      List.perm_insertionSort _ _, List.sorted_insertionSort _ _, ?_⟩
    have hne : ¬ List.map Prod.fst w.files = [] := by simpa using h
    simp only [cmdList, ensureDir, hne, if_false, print_cout]
    rfl
  · have hnil : (List.map Prod.fst v.files = []) ↔ (List.map Prod.fst w.files = []) := by
      constructor
      · intro h0; rw [h0] at hp; exact List.Perm.eq_nil hp.symm
      · intro h0; rw [h0] at hp; exact List.Perm.eq_nil hp
    by_cases h0 : List.map Prod.fst w.files = []
    · simp [cmdList, ensureDir, h0, hnil.mpr h0, hc]
    · have h1 : ¬ List.map Prod.fst v.files = [] := fun h => h0 (hnil.mp h)
      simp only [cmdList, ensureDir, h0, h1, if_false, print_cout, hc, sort_perm_invariant _ _ hp]
  · have hfiles : (cmdCreate (lit "a.com") (cmdCreate (lit "b.com") (emptyWorld []))).files =
        [(lit "b.com", []), (lit "a.com", [])] := by decide
    have hne : ¬ List.map Prod.fst [(lit "b.com", ([] : Str)), (lit "a.com", [])] = [] := by
      decide
    simp only [cmdList, ensureDir, hfiles, hne, if_false, print_cout]
    congr 1

/-- Witness of C7: `list` in an empty storage directory, and in one that holds `hello.com`. -/
theorem cmdList_spec_witness :
    ((emptyWorld []).files = [] ∧ (helloWorld [] []).files ≠ []) ∧
    (cmdList (emptyWorld [])).cout = (emptyWorld []).cout ++
      lit "No sites yet. Use 'create <name>.<domain>' to make one.\n" ∧
    (∃ sorted : List Str,
      sorted.Perm ((helloWorld [] []).files.map Prod.fst) ∧
      sorted.Sorted (fun a b => a ≤ b) ∧
      (cmdList (helloWorld [] [])).cout = (helloWorld [] []).cout ++ (lit "Sites on fake-web:\n"
        ++ sorted.flatMap (fun s => lit "  • " ++ s ++ lit "\n"))) :=
  ⟨⟨rfl, by decide⟩, (cmdList_spec (emptyWorld [])).1 rfl,
   (cmdList_spec (helloWorld [] [])).2.1 (by decide)⟩

/-! ## The line parser -/

theorem dropWhile_all (p : Nat → Bool) (pre l : Str) (h : ∀ x ∈ pre, p x = true) :
    (pre ++ l).dropWhile p = l.dropWhile p := by
  induction pre with
  | nil => rfl
  | cons x pre ih =>
    rw [List.cons_append, List.dropWhile_cons, if_pos (h x (List.mem_cons_self _ _))]
    exact ih (fun y hy => h y (List.mem_cons_of_mem _ hy))

theorem dropWhile_head_false (p : Nat → Bool) (l : Str) (h : ∀ x, l.head? = some x → p x = false) :
    l.dropWhile p = l := by
  cases l with
  | nil => rfl
  | cons x l => rw [List.dropWhile_cons, if_neg (by simp [h x rfl])]

theorem dropWhile_all_nil (p : Nat → Bool) (l : Str) (h : ∀ x ∈ l, p x = true) :
    l.dropWhile p = [] := by
  have := dropWhile_all p l [] h
  simpa using this

theorem dropWhile_of_mem_false (p : Nat → Bool) (l : Str) (h : ∀ x ∈ l, p x = false) :
    l.dropWhile p = l :=
  dropWhile_head_false p l (fun x hx => h x (List.mem_of_mem_head? hx))

/-- Trimming a word surrounded by whitespace leaves the word. -/
theorem trim_word (pre post c : Str) (hpre : ∀ x ∈ pre, isspace x = true)
    (hpost : ∀ x ∈ post, isspace x = true) (hc : ∀ x ∈ c, isspace x = false) :
    trim (pre ++ c ++ post) = c := by
  unfold trim
  rw [List.append_assoc, dropWhile_all _ _ _ hpre]
  cases c with
  | nil =>
    rw [List.nil_append, dropWhile_all_nil _ _ hpost]
    rfl
  | cons x c =>
    rw [List.cons_append, List.dropWhile_cons, if_neg (by simp [hc x]), ← List.cons_append,
      List.rdropWhile, List.reverse_append,
      dropWhile_all _ _ _ (fun y hy => hpost y (List.mem_reverse.mp hy)),
      dropWhile_of_mem_false _ _ (fun y hy => hc y (List.mem_reverse.mp hy)),
      List.reverse_reverse]

/-- A trimmed line made of a single word parses to that word and an empty argument. -/
theorem parseLine_word (c : Str) (hc : ∀ x ∈ c, isspace x = false) :
    parseLine c = (c, []) := by
  have h1 : c.dropWhile isspace = c := dropWhile_of_mem_false _ _ hc
  have h2 : c.takeWhile (fun x => !isspace x) = c := by
    rw [List.takeWhile_eq_self_iff]
    intro x hx
    simp [hc x hx]
  have h3 : c.dropWhile (fun x => !isspace x) = [] :=
    dropWhile_all_nil _ _ (fun x hx => by simp [hc x hx])
  simp only [parseLine, h1, h2, h3, List.dropWhile_nil, getline_nil]

/-- A line made of a word surrounded by whitespace is executed like the word alone. -/
theorem execLine_word (pre post c : Str) (w : World) (hpre : ∀ x ∈ pre, isspace x = true)
    (hpost : ∀ x ∈ post, isspace x = true) (hc : ∀ x ∈ c, isspace x = false) :
    execLine (pre ++ c ++ post) w = execLine c w := by
  have h1 := trim_word pre post c hpre hpost hc
  have h2 := trim_word [] [] c (by simp) (by simp) hc
  simp only [List.nil_append, List.append_nil] at h2
  simp only [execLine, h1, h2]

theorem execLine_create (w : World) :
    execLine (lit "create") w = (w.print (lit "Usage: create <name>.<domain>\n"), true) := rfl

theorem execLine_edit (w : World) :
    execLine (lit "edit") w = (w.print (lit "Usage: edit <name>.<domain>\n"), true) := rfl

theorem execLine_visit (w : World) :
    execLine (lit "visit") w = (w.print (lit "Usage: visit <name>.<domain>\n"), true) := rfl

theorem execLine_delete (w : World) :
    execLine (lit "delete") w = (w.print (lit "Usage: delete <name>.<domain>\n"), true) := rfl

theorem execLine_rm (w : World) :
    execLine (lit "rm") w = (w.print (lit "Usage: delete <name>.<domain>\n"), true) := rfl

/-- C8, counterexample: the line `rm` prints `Usage: delete <name>.<domain>`, not
`Usage: rm <name>.<domain>`. -/
theorem usage_rm_counterexample :
    (execLine (lit "rm") (emptyWorld [])).1.cout = lit "Usage: delete <name>.<domain>\n" ∧
    (execLine (lit "rm") (emptyWorld [])).1.cout ≠
      lit "Usage: " ++ lit "rm" ++ lit " <name>.<domain>\n" := by
  decide

/-- C8, amended: an input line that consists of a command word with an empty argument, possibly
surrounded by whitespace, prints exactly `Usage: <cmd> <name>.<domain>` with the word typed
when the word is `create`, `edit`, `visit` or `delete`, and `Usage: delete <name>.<domain>`
when the word is the alias `rm`; in each case the storage directory and the unread input are
left as they were and the command loop goes on. -/
theorem usage_on_empty_argument (w : World) (pre post : Str)
    (hpre : ∀ x ∈ pre, isspace x = true) (hpost : ∀ x ∈ post, isspace x = true) :
    (∀ cmd ∈ [lit "create", lit "edit", lit "visit", lit "delete"],
      execLine (pre ++ cmd ++ post) w =
        (w.print (lit "Usage: " ++ cmd ++ lit " <name>.<domain>\n"), true)) ∧
    execLine (pre ++ lit "rm" ++ post) w =
      (w.print (lit "Usage: delete <name>.<domain>\n"), true) ∧
    (∀ cmd ∈ [lit "create", lit "edit", lit "visit", lit "delete", lit "rm"],
      (execLine (pre ++ cmd ++ post) w).1.files = w.files ∧
      (execLine (pre ++ cmd ++ post) w).1.cin = w.cin) := by
  have hcreate := execLine_word pre post (lit "create") w hpre hpost (by decide)
  have hedit := execLine_word pre post (lit "edit") w hpre hpost (by decide)
  have hvisit := execLine_word pre post (lit "visit") w hpre hpost (by decide)
  have hdelete := execLine_word pre post (lit "delete") w hpre hpost (by decide)
  have hrm := execLine_word pre post (lit "rm") w hpre hpost (by decide)
  refine ⟨?_, ?_, ?_⟩
  · intro cmd hcmd
    simp only [List.mem_cons, List.mem_singleton, List.not_mem_nil, or_false] at hcmd
    rcases hcmd with rfl | rfl | rfl | rfl
    · rw [hcreate]; rfl
    · rw [hedit]; rfl
    · rw [hvisit]; rfl
    · rw [hdelete]; rfl
  · rw [hrm]; rfl
  · intro cmd hcmd
    simp only [List.mem_cons, List.mem_singleton, List.not_mem_nil, or_false] at hcmd
    rcases hcmd with rfl | rfl | rfl | rfl | rfl
    · rw [hcreate, execLine_create]; exact ⟨rfl, rfl⟩
    · rw [hedit, execLine_edit]; exact ⟨rfl, rfl⟩
    · rw [hvisit, execLine_visit]; exact ⟨rfl, rfl⟩
    · rw [hdelete, execLine_delete]; exact ⟨rfl, rfl⟩
    · rw [hrm, execLine_rm]; exact ⟨rfl, rfl⟩

/-- Witness of the amended C8: the words typed after two spaces and before a space and a tab,
with `hello.com` in the storage directory. -/
theorem usage_on_empty_argument_witness :
    ((∀ x ∈ lit "  ", isspace x = true) ∧ (∀ x ∈ lit " \t", isspace x = true)) ∧
    ((∀ cmd ∈ [lit "create", lit "edit", lit "visit", lit "delete"],
      execLine (lit "  " ++ cmd ++ lit " \t") (helloWorld [] []) =
        ((helloWorld [] []).print (lit "Usage: " ++ cmd ++ lit " <name>.<domain>\n"), true)) ∧
    execLine (lit "  " ++ lit "rm" ++ lit " \t") (helloWorld [] []) =
      ((helloWorld [] []).print (lit "Usage: delete <name>.<domain>\n"), true) ∧
    (∀ cmd ∈ [lit "create", lit "edit", lit "visit", lit "delete", lit "rm"],
      (execLine (lit "  " ++ cmd ++ lit " \t") (helloWorld [] [])).1.files
        = (helloWorld [] []).files ∧
      (execLine (lit "  " ++ cmd ++ lit " \t") (helloWorld [] [])).1.cin
        = (helloWorld [] []).cin)) :=
  ⟨⟨by decide, by decide⟩,
   usage_on_empty_argument (helloWorld [] []) (lit "  ") (lit " \t") (by decide) (by decide)⟩

/-! ## The width of the box -/

/-- C10, the code at `visit hello.com` where `hello.com` holds the line `Hi there`: the box is
printed as the seven lines below, of which the borders (fifty `═` between two corners) and the
header show 52 characters and the body row only 51, while the placeholder row of an empty
page shows 52. -/
theorem cmdVisit_body_row_short :
    (cmdVisit (lit "hello.com") (helloWorld (lit "Hi there\n") [])).cout =
      unlines [[],
        (lit "╔" ++ hbar 50 ++ lit "╗"),
        lit "║  fake-web://  hello.com                          ║",
        (lit "╠" ++ hbar 50 ++ lit "╣"),
        lit "║  Hi there                                       ║",
        (lit "╚" ++ hbar 50 ++ lit "╝"),
        []] ∧
    columns (lit "╔" ++ hbar 50 ++ lit "╗") = 52 ∧
    columns (lit "║  fake-web://  hello.com                          ║") = 52 ∧
    columns (lit "╠" ++ hbar 50 ++ lit "╣") = 52 ∧
    columns (lit "║  Hi there                                       ║") = 51 ∧
    columns (lit "╚" ++ hbar 50 ++ lit "╝") = 52 ∧
    boxBody [] = unlines [lit "║  (empty page)                                    ║"] ∧
    columns (lit "║  (empty page)                                    ║") = 52 := by
  refine ⟨?_, by decide, by decide, by decide, by decide, by decide, by decide, by decide⟩
  have hbody : boxBody (lit "Hi there\n") = renderRow (lit "Hi there") := by
    have h : bodyLoop (unlines [lit "Hi there"]) = [lit "Hi there"].flatMap renderRow := by
      rw [bodyLoop_spec, inputLines_unlines _ (by decide)]
    have hu : unlines [lit "Hi there"] = lit "Hi there\n" := by decide
    rw [hu] at h
    simp only [boxBody, h, List.flatMap_cons, List.flatMap_nil, List.append_nil]
    rfl
  have hread : readFile (helloWorld (lit "Hi there\n") []).files (lit "hello.com")
      = lit "Hi there\n" := by decide
  have hex : fsExists (helloWorld (lit "Hi there\n") []).files (lit "hello.com") = true := by
    decide
  have e1 : boxTop = (lit "╔" ++ hbar 50 ++ lit "╗") ++ [NL] := by
    decide
  have e2 : boxHeader (lit "hello.com") =
      lit "║  fake-web://  hello.com                          ║" ++ [NL] := by decide
  have e3 : boxMid = (lit "╠" ++ hbar 50 ++ lit "╣") ++ [NL] := by
    decide
  have e4 : renderRow (lit "Hi there") =
      lit "║  Hi there                                       ║" ++ [NL] := by decide
  have e5 : boxBottom =
      (lit "╚" ++ hbar 50 ++ lit "╝") ++ [NL] ++ [NL] := by decide
  have e6 : (helloWorld (lit "Hi there\n") []).cout = [] := rfl
  rw [cmdVisit_entry _ _ hex]
  simp only [hread, hbody, print_cout, e1, e2, e3, e4, e5, e6, lit_newline, unlines,
    List.flatMap_cons, List.flatMap_nil, List.nil_append, List.append_nil, List.append_assoc]

end FakeWeb
